import Mathlib

/-!
# Verification of the Ashland Market anomaly-finder analysis engine

Shallow embedding of `anomaly-finder/analysis.js` (the clustering +
robust-statistics + anomaly-scoring pipeline) and proofs about it.

Modelling conventions:
* JS numbers are modelled as `ℚ` (the engine only adds, subtracts,
  multiplies, divides and compares; inputs are assumed finite per the
  stated precondition on coordinates and fields).
* Nullable JS values are `Option ℚ` / `Option String`.
* `Array.prototype.sort` is mandated stable by the ECMAScript spec; it is
  modelled by `stableSort`, a structurally recursive stable insertion
  sort.  For a transitive, total boolean comparator every stable sort
  computes the same list, so this is result-faithful to the source.
* JS object / `Map` key iteration follows first-insertion order; it is
  modelled by association lists and `firstKeys`.
-/

namespace Ashland

/-! ## A stable sort (model of `Array.prototype.sort` with a comparator) -/

/-- Insert `a` in front of the first element `b` with `le a b`. -/
def insertSorted (le : α → α → Bool) (a : α) : List α → List α
  | [] => [a]
  | b :: l => if le a b then a :: b :: l else b :: insertSorted le a l

/-- Stable insertion sort: later elements are inserted below earlier
equal ones, matching the stability guarantee of `Array.prototype.sort`. -/
def stableSort (le : α → α → Bool) : List α → List α
  | [] => []
  | a :: l => insertSorted le a (stableSort le l)

theorem insertSorted_perm (le : α → α → Bool) (a : α) (l : List α) :
    List.Perm (insertSorted le a l) (a :: l) := by
  induction l with
  | nil => exact List.Perm.refl _
  | cons b l ih =>
    rw [insertSorted]
    split
    · exact List.Perm.refl _
    · exact (List.Perm.cons b ih).trans (List.Perm.swap a b l)

theorem stableSort_perm (le : α → α → Bool) (l : List α) :
    List.Perm (stableSort le l) l := by
  induction l with
  | nil => exact List.Perm.refl _
  | cons a l ih =>
    exact (insertSorted_perm le a (stableSort le l)).trans (ih.cons a)

theorem length_stableSort (le : α → α → Bool) (l : List α) :
    (stableSort le l).length = l.length :=
  (stableSort_perm le l).length_eq

theorem mem_insertSorted {le : α → α → Bool} {a x : α} {l : List α} :
    x ∈ insertSorted le a l ↔ x = a ∨ x ∈ l := by
  induction l with
  | nil => simp [insertSorted]
  | cons b l ih =>
    rw [insertSorted]
    split
    · simp [List.mem_cons]
    · simp only [List.mem_cons, ih]
      tauto

theorem mem_stableSort {le : α → α → Bool} {x : α} {l : List α} :
    x ∈ stableSort le l ↔ x ∈ l :=
  (stableSort_perm le l).mem_iff

theorem pairwise_insertSorted {le : α → α → Bool}
    (total : ∀ a b, le a b = false → le b a = true)
    (trans : ∀ a b c, le a b = true → le b c = true → le a c = true)
    {a : α} {l : List α} (h : l.Pairwise (fun x y => le x y = true)) :
    (insertSorted le a l).Pairwise (fun x y => le x y = true) := by
  induction l with
  | nil => simp [insertSorted]
  | cons b l ih =>
    rw [insertSorted]
    cases h with
    | cons hb hl =>
      by_cases hab : le a b = true
      · rw [if_pos hab]
        refine List.Pairwise.cons ?_ (List.Pairwise.cons hb hl)
        intro x hx
        rcases List.mem_cons.mp hx with rfl | hx
        · exact hab
        · exact trans a b x hab (hb x hx)
      · rw [if_neg hab]
        have hba : le b a = true := total a b (by simpa using hab)
        refine List.Pairwise.cons ?_ (ih hl)
        intro x hx
        rcases mem_insertSorted.mp hx with rfl | hx
        · exact hba
        · exact hb x hx

theorem pairwise_stableSort {le : α → α → Bool}
    (total : ∀ a b, le a b = false → le b a = true)
    (trans : ∀ a b c, le a b = true → le b c = true → le a c = true)
    (l : List α) :
    (stableSort le l).Pairwise (fun x y => le x y = true) := by
  induction l with
  | nil => exact List.Pairwise.nil
  | cons a l ih => exact pairwise_insertSorted total trans ih

theorem filter_insertSorted_pos {le : α → α → Bool} {p : α → Bool} {a : α}
    {l : List α} (ha : p a = true)
    (hle : ∀ b ∈ l, p b = true → le a b = true) :
    (insertSorted le a l).filter p = a :: l.filter p := by
  induction l with
  | nil => simp [insertSorted, ha]
  | cons b l ih =>
    rw [insertSorted]
    split
    · rw [List.filter_cons_of_pos ha]
    · rename_i hnab
      have hpb : p b = false := by
        rcases hpb : p b with _ | _
        · rfl
        · exact absurd (hle b (by simp) hpb) (by simpa using hnab)
      rw [List.filter_cons_of_neg (by simp [hpb]),
        List.filter_cons_of_neg (by simp [hpb])]
      exact ih (fun c hc hpc => hle c (by simp [hc]) hpc)

theorem filter_insertSorted_neg {le : α → α → Bool} {p : α → Bool} {a : α}
    {l : List α} (ha : p a = false) :
    (insertSorted le a l).filter p = l.filter p := by
  induction l with
  | nil => simp [insertSorted, ha]
  | cons b l ih =>
    rw [insertSorted]
    split
    · rw [List.filter_cons_of_neg (by simp [ha])]
    · rw [List.filter_cons, List.filter_cons, ih]

/-- Stability of `stableSort`, in filter form: elements that are mutually
`le`-related under `p` keep their original relative order. -/
theorem filter_stableSort {le : α → α → Bool} {p : α → Bool}
    (hp : ∀ x y, p x = true → p y = true → le x y = true) (l : List α) :
    (stableSort le l).filter p = l.filter p := by
  induction l with
  | nil => rfl
  | cons a l ih =>
    rw [stableSort]
    rcases ha : p a with _ | _
    · rw [filter_insertSorted_neg ha, ih, List.filter_cons_of_neg (by simp [ha])]
    · rw [filter_insertSorted_pos ha (fun b _ hpb => hp a b ha hpb), ih,
        List.filter_cons_of_pos ha]

/-! ## Small list helpers -/

theorem length_filterMap_eq_countP (f : α → Option β) (l : List α) :
    (l.filterMap f).length = l.countP (fun a => (f a).isSome) := by
  induction l with
  | nil => rfl
  | cons a l ih =>
    rcases hfa : f a with _ | b <;>
      simp [List.filterMap_cons, List.countP_cons, hfa, ih]

theorem countP_le_of_imp {p q : α → Bool} (l : List α)
    (h : ∀ a ∈ l, p a = true → q a = true) :
    l.countP p ≤ l.countP q := by
  induction l with
  | nil => simp
  | cons a l ih =>
    have ih' := ih (fun b hb => h b (by simp [hb]))
    rcases hpa : p a with _ | _
    · rcases hqa : q a with _ | _ <;>
        simp only [List.countP_cons, hpa, hqa, if_pos, if_neg,
          Bool.false_eq_true, not_false_eq_true, ite_true, ite_false] <;>
        omega
    · have hqa := h a (by simp) hpa
      simp only [List.countP_cons, hpa, hqa, ite_true]
      omega

theorem natSum_le_natSum {f g : α → ℕ} (l : List α)
    (h : ∀ a ∈ l, f a ≤ g a) :
    (l.map f).sum ≤ (l.map g).sum := by
  induction l with
  | nil => simp
  | cons a l ih =>
    have h1 := h a (by simp)
    have h2 := ih (fun b hb => h b (by simp [hb]))
    simp only [List.map_cons, List.sum_cons]
    omega

theorem pairwise_of_forall_mem {r : α → α → Prop} {l : List α}
    (h : ∀ x ∈ l, ∀ y ∈ l, r x y) : l.Pairwise r := by
  induction l with
  | nil => exact List.Pairwise.nil
  | cons a l ih =>
    refine List.Pairwise.cons (fun y hy => h a (by simp) y (by simp [hy])) ?_
    exact ih (fun x hx y hy => h x (by simp [hx]) y (by simp [hy]))

/-! ## Data model

A parcel record, per the shared schema (`account`, `lat`, `lng`,
`address`, and six nullable numeric market fields). -/

structure Parcel where
  account : String
  lat : ℚ
  lng : ℚ
  address : Option String
  sqft_living : Option ℚ
  sqft_lot : Option ℚ
  year_built : Option ℚ
  last_sale_price : Option ℚ
  price_per_sqft : Option ℚ
  assessed_value : Option ℚ
deriving DecidableEq, Repr

/-- The eight metric keys of the catalog: six core metrics read directly
off the parcel plus two derived metrics. -/
inductive MetricKey where
  | sqft_lot
  | sqft_living
  | last_sale_price
  | price_per_sqft
  | assessed_value
  | year_built
  | sale_assess_ratio
  | building_lot_ratio
deriving DecidableEq, Repr, Fintype

/-- The `METRICS` array: the six core metrics, in source order.
(Display-only fields `label`, `unit`, `format` are omitted: they produce
strings for the UI and are referenced by no analysed behavior.) -/
def METRICS : List MetricKey :=
  [.sqft_lot, .sqft_living, .last_sale_price, .price_per_sqft,
   .assessed_value, .year_built]

/-- The `DERIVED_METRICS` array keys, in source order. -/
def DERIVED_METRICS : List MetricKey :=
  [.sale_assess_ratio, .building_lot_ratio]

def getAllMetrics : List MetricKey := METRICS ++ DERIVED_METRICS

/-- Direct field read `p[metric.key]` for the six core metrics.
Derived keys are never read directly off a parcel. -/
def coreValue (p : Parcel) : MetricKey → Option ℚ
  | .sqft_lot => p.sqft_lot
  | .sqft_living => p.sqft_living
  | .last_sale_price => p.last_sale_price
  | .price_per_sqft => p.price_per_sqft
  | .assessed_value => p.assessed_value
  | .year_built => p.year_built
  | _ => none

/-- `compute` of the `sale_assess_ratio` metric:
`p.last_sale_price && p.assessed_value ? p.last_sale_price / p.assessed_value : null`.
A JS number is falsy exactly when it is `0` (`NaN` is excluded by the
finiteness precondition), so the guard is: both present and both nonzero. -/
def saleAssessRatio (p : Parcel) : Option ℚ :=
  match p.last_sale_price, p.assessed_value with
  | some s, some a => if s ≠ 0 ∧ a ≠ 0 then some (s / a) else none
  | _, _ => none

/-- `compute` of the `building_lot_ratio` metric:
`p.sqft_living && p.sqft_lot ? p.sqft_living / p.sqft_lot : null`. -/
def buildingLotRatio (p : Parcel) : Option ℚ :=
  match p.sqft_living, p.sqft_lot with
  | some s, some a => if s ≠ 0 ∧ a ≠ 0 then some (s / a) else none
  | _, _ => none

/-- `metric.compute(p)` for the two derived metrics. -/
def derivedValue (p : Parcel) : MetricKey → Option ℚ
  | .sale_assess_ratio => saleAssessRatio p
  | .building_lot_ratio => buildingLotRatio p
  | _ => none

/-! ## Statistics helpers (`median`, `mad`, `mean`, `percentile`,
`modifiedZScore`) -/

/-- `[...arr].sort((a, b) => a - b)`: numeric ascending sort of a copy. -/
def sortAsc (l : List ℚ) : List ℚ := stableSort (fun a b => decide (a ≤ b)) l

/-- `median(arr)`: `null` on empty input, middle element of the sorted
copy on odd length, average of the two middle elements on even length. -/
def median (arr : List ℚ) : Option ℚ :=
  if arr.length = 0 then none
  else
    let sorted := sortAsc arr
    let mid := sorted.length / 2
    if sorted.length % 2 ≠ 0 then some (sorted.getD mid 0)
    else some ((sorted.getD (mid - 1) 0 + sorted.getD mid 0) / 2)

/-- `mad(arr)`: median of absolute deviations from the median. -/
def mad (arr : List ℚ) : Option ℚ :=
  match median arr with
  | none => none
  | some med => median (arr.map (fun v => |v - med|))

/-- `mean(arr)`: arithmetic mean, `null` on empty input. -/
def mean (arr : List ℚ) : Option ℚ :=
  if arr.length = 0 then none else some (arr.sum / arr.length)

/-- Linear interpolation into a sorted list at fractional rank `idx`:
`sorted[lo]` when `lo == hi`, else
`sorted[lo] + (sorted[hi] - sorted[lo]) * (idx - lo)`. -/
def interpAt (s : List ℚ) (idx : ℚ) : ℚ :=
  let lo : ℤ := ⌊idx⌋
  let hi : ℤ := ⌈idx⌉
  if lo = hi then s.getD lo.toNat 0
  else s.getD lo.toNat 0 + (s.getD hi.toNat 0 - s.getD lo.toNat 0) * (idx - (lo : ℚ))

/-- `percentile(arr, p)`: rank `p/100 * (n-1)` with linear interpolation
between the floor and ceiling ranks; `null` on empty input.  (The engine
only calls it with `p = 10` and `p = 90`.) -/
def percentile (arr : List ℚ) (p : ℚ) : Option ℚ :=
  if arr.length = 0 then none
  else
    let sorted := sortAsc arr
    some (interpAt sorted (p / 100 * ((sorted.length : ℚ) - 1)))

/-- `modifiedZScore(value, med, madVal)`: `null` when MAD is `null` or
`0`, else `0.6745 * (value - med) / madVal`. -/
def modifiedZScore (value med : ℚ) (madVal : Option ℚ) : Option ℚ :=
  match madVal with
  | none => none
  | some m => if m = 0 then none else some (0.6745 * (value - med) / m)

/-! ## Grid clustering -/

/-- Grid cell of a parcel: `(Math.floor(lat / cellSize), Math.floor(lng / cellSize))`.
The JS key string `"row,col"` is in bijection with this pair. -/
def gridKey (p : Parcel) (cellSize : ℚ) : ℤ × ℤ :=
  (⌊p.lat / cellSize⌋, ⌊p.lng / cellSize⌋)

/-- String form of a grid key, as in the JS template `` `${gridRow},${gridCol}` ``. -/
def idStr (k : ℤ × ℤ) : String := toString k.1 ++ "," ++ toString k.2

/-- Keys of a list in first-occurrence order: the iteration order of the
JS `Map` built by inserting each key once, on first sight. -/
def firstKeysAux (seen : List (ℤ × ℤ)) : List (ℤ × ℤ) → List (ℤ × ℤ)
  | [] => []
  | k :: ks =>
    if k ∈ seen then firstKeysAux seen ks
    else k :: firstKeysAux (k :: seen) ks

def firstKeys (l : List (ℤ × ℤ)) : List (ℤ × ℤ) := firstKeysAux [] l

/-- A neighborhood: grid cell id, grid indices, cell-center coordinates
and the member parcels (in input order). -/
structure Hood where
  id : ℤ × ℤ
  gridRow : ℤ
  gridCol : ℤ
  centerLat : ℚ
  centerLng : ℚ
  parcels : List Parcel
deriving DecidableEq, Repr

/-- `clusterIntoNeighborhoods(parcels, cellSize)`: one neighborhood per
occupied grid cell, keyed in first-occurrence order, members in input
order (each parcel is pushed onto the list of its own cell). -/
def clusterIntoNeighborhoods (parcels : List Parcel) (cellSize : ℚ) : List Hood :=
  (firstKeys (parcels.map (fun p => gridKey p cellSize))).map (fun k =>
    { id := k
      gridRow := k.1
      gridCol := k.2
      centerLat := ((k.1 : ℚ) + 1/2) * cellSize
      centerLng := ((k.2 : ℚ) + 1/2) * cellSize
      parcels := parcels.filter (fun p => gridKey p cellSize = k) })

/-! ## Neighborhood naming -/

/-- The street string extracted from one address: trim, split on
whitespace, drop the first token when it starts with a digit and join the
rest with single spaces, otherwise keep the whole address. -/
def streetOf (addr : String) : String :=
  let parts := (addr.trim.split (fun c => c.isWhitespace)).filter (fun s => s ≠ "")
  match parts with
  | [] => addr
  | t :: rest =>
    match t.data with
    | [] => addr
    | c :: _ => if c.isDigit then String.intercalate " " rest else addr

/-- Tally one street into the association list (JS
`streetCounts[street] = (streetCounts[street] || 0) + 1`, object keys in
insertion order). -/
def bumpCount (s : String) : List (String × ℕ) → List (String × ℕ)
  | [] => [(s, 1)]
  | (t, n) :: rest =>
    if t = s then (t, n + 1) :: rest else (t, n) :: bumpCount s rest

/-- The street tally of a neighborhood: for each member with an address,
compute its street and, when the street string is non-empty (JS
truthiness), count it. -/
def streetCounts (parcels : List Parcel) : List (String × ℕ) :=
  parcels.foldl (fun acc p =>
    match p.address with
    | none => acc
    | some a =>
      let street := streetOf a
      if street = "" then acc else bumpCount street acc) []

/-- `nameNeighborhood(hood)`: `'Unknown'` for an empty neighborhood, the
most frequent street (first-encountered wins ties, via the stable
descending sort of `Object.entries`), else the `Area {id}` fallback. -/
def nameNeighborhood (hood : Hood) : String :=
  if hood.parcels.length = 0 then "Unknown"
  else
    let sorted := stableSort (fun a b : String × ℕ => decide (b.2 ≤ a.2))
      (streetCounts hood.parcels)
    match sorted with
    | (s, _) :: _ => s
    | [] => "Area " ++ idStr hood.id

/-! ## Neighborhood statistics -/

/-- One per-metric stats record `{count, median, mad, mean, min, max, p10, p90}`. -/
structure StatsEntry where
  count : ℕ
  median : Option ℚ
  mad : Option ℚ
  mean : Option ℚ
  min : Option ℚ
  max : Option ℚ
  p10 : Option ℚ
  p90 : Option ℚ
deriving DecidableEq, Repr

/-- The stats record of one eligible-value list (`Math.min(...values)` /
`Math.max(...values)` guarded by `values.length`). -/
def statsOf (values : List ℚ) : StatsEntry :=
  { count := values.length
    median := median values
    mad := mad values
    mean := mean values
    min := values.min?
    max := values.max?
    p10 := percentile values 10
    p90 := percentile values 90 }

/-- Eligible values of a metric over a member list: core metrics keep
present, strictly positive values (`v != null && v > 0`); derived metrics
keep computed values (`v != null && isFinite(v)`; in `ℚ` every computed
ratio is finite). -/
def eligibleValues (parcels : List Parcel) (k : MetricKey) : List ℚ :=
  if k ∈ METRICS then
    parcels.filterMap (fun p =>
      match coreValue p k with
      | none => none
      | some v => if 0 < v then some v else none)
  else
    parcels.filterMap (fun p => derivedValue p k)

/-- `computeNeighborhoodStats(hood)`: the per-metric stats map (an entry
exists for all eight keys). -/
def computeNeighborhoodStats (hood : Hood) : MetricKey → StatsEntry :=
  fun k => statsOf (eligibleValues hood.parcels k)

/-! ## Anomaly scoring -/

/-- One per-metric anomaly flag.  (`label`, `formatted` and
`neighborhoodMedianFormatted` are display strings, omitted.) -/
structure Anomaly where
  metric : MetricKey
  value : ℚ
  neighborhoodMedian : Option ℚ
  zScore : ℚ
  direction : String
  severity : ℚ
deriving DecidableEq, Repr

/-- The body of the scoring loop after the value gate: skip when the
neighborhood has fewer than 5 samples, compute the modified z-score
(`stats.median` is a number whenever `count ≥ 5`; JS would coerce a
`null` median to `0`, hence `getD 0`), skip a `null` z, and flag iff
`|z| ≥ threshold`. -/
def mkFlag (k : MetricKey) (v : ℚ) (st : StatsEntry) (threshold : ℚ) :
    Option Anomaly :=
  if st.count < 5 then none
  else
    match modifiedZScore v (st.median.getD 0) st.mad with
    | none => none
    | some z =>
      if threshold ≤ |z| then
        some { metric := k
               value := v
               neighborhoodMedian := st.median
               zScore := z
               direction := if 0 < z then "high" else "low"
               severity := |z| }
      else none

/-- The core-metric value gate `value == null || value <= 0`. -/
def coreScoreValue (p : Parcel) (k : MetricKey) : Option ℚ :=
  match coreValue p k with
  | none => none
  | some v => if v ≤ 0 then none else some v

/-- `findParcelAnomalies(parcel, neighborhoodStats, threshold)`: core
metrics first, then derived metrics (derived gate:
`value == null || !isFinite(value)`), in catalog order. -/
def findParcelAnomalies (p : Parcel) (stats : MetricKey → StatsEntry)
    (threshold : ℚ) : List Anomaly :=
  METRICS.filterMap (fun k =>
    (coreScoreValue p k).bind (fun v => mkFlag k v (stats k) threshold))
  ++ DERIVED_METRICS.filterMap (fun k =>
    (derivedValue p k).bind (fun v => mkFlag k v (stats k) threshold))

/-! ## Orchestrator -/

/-- One entry of the flat anomalies list:
`{parcel, neighborhood: {id, name, parcelCount}, anomalies, maxSeverity}`. -/
structure AnomalyRecord where
  parcel : Parcel
  hoodId : ℤ × ℤ
  hoodName : String
  hoodParcelCount : ℕ
  anomalies : List Anomaly
  maxSeverity : ℚ
deriving DecidableEq, Repr

/-- `Math.max(...anomalies.map(a => a.severity))`; only ever applied to
non-empty lists (the `[]` branch is unreachable at the call site). -/
def maxSeverityOf : List Anomaly → ℚ
  | [] => 0
  | a :: rest => rest.foldl (fun m x => max m x.severity) a.severity

/-- One neighborhood result object
`{id, name, parcelCount, centerLat, centerLng, stats, anomalyCount}`. -/
structure HoodResult where
  id : ℤ × ℤ
  name : String
  parcelCount : ℕ
  centerLat : ℚ
  centerLng : ℚ
  stats : MetricKey → StatsEntry
  anomalyCount : ℕ
deriving DecidableEq

/-- The member-parcel loop of `runAnalysis`: accumulate
`anomalyCount += anomalies.length` and push one record per parcel whose
anomaly list is non-empty. -/
def hoodScan (hoodId : ℤ × ℤ) (name : String) (parcelCount : ℕ)
    (stats : MetricKey → StatsEntry) (threshold : ℚ)
    (parcels : List Parcel) : ℕ × List AnomalyRecord :=
  parcels.foldl (fun acc p =>
    let anomalies := findParcelAnomalies p stats threshold
    if anomalies.isEmpty then acc
    else
      (acc.1 + anomalies.length,
       acc.2 ++ [{ parcel := p
                   hoodId := hoodId
                   hoodName := name
                   hoodParcelCount := parcelCount
                   anomalies := anomalies
                   maxSeverity := maxSeverityOf anomalies }]))
    (0, [])

/-- The per-neighborhood step of `runAnalysis`: derive the name, compute
the stats, scan the members. -/
def processHood (hood : Hood) (threshold : ℚ) :
    HoodResult × List AnomalyRecord :=
  let name := nameNeighborhood hood
  let stats := computeNeighborhoodStats hood
  let scan := hoodScan hood.id name hood.parcels.length stats threshold hood.parcels
  ({ id := hood.id
     name := name
     parcelCount := hood.parcels.length
     centerLat := hood.centerLat
     centerLng := hood.centerLng
     stats := stats
     anomalyCount := scan.1 }, scan.2)

/-- The neighborhoods list before the final sort, in cell
first-occurrence order. -/
def analysisNeighborhoodsUnsorted (parcels : List Parcel)
    (cellSize threshold : ℚ) : List HoodResult :=
  ((clusterIntoNeighborhoods parcels cellSize).map
    (fun h => processHood h threshold)).map (fun r => r.1)

/-- The flat anomalies accumulator before the final sort: per
neighborhood, per member parcel, in processing order. -/
def analysisAnomaliesUnsorted (parcels : List Parcel)
    (cellSize threshold : ℚ) : List AnomalyRecord :=
  (((clusterIntoNeighborhoods parcels cellSize).map
    (fun h => processHood h threshold)).map (fun r => r.2)).flatten

/-- Comparator `(a, b) => b.maxSeverity - a.maxSeverity` as a boolean
`≤`-test: descending by `maxSeverity`. -/
def anomLE (a b : AnomalyRecord) : Bool := decide (b.maxSeverity ≤ a.maxSeverity)

/-- Comparator `(a, b) => b.anomalyCount - a.anomalyCount || b.parcelCount - a.parcelCount`
as a boolean `≤`-test: descending by `anomalyCount`, then by `parcelCount`. -/
def hoodLE (a b : HoodResult) : Bool :=
  decide (b.anomalyCount < a.anomalyCount ∨
    (b.anomalyCount = a.anomalyCount ∧ b.parcelCount ≤ a.parcelCount))

structure AnalysisResult where
  neighborhoods : List HoodResult
  anomalies : List AnomalyRecord

/-- `runAnalysis(parcels, {cellSize, threshold})`: cluster, process each
neighborhood, then sort the anomalies by severity descending and the
neighborhoods by anomaly count then parcel count descending. -/
def runAnalysis (parcels : List Parcel) (cellSize threshold : ℚ) :
    AnalysisResult :=
  { neighborhoods :=
      stableSort hoodLE (analysisNeighborhoodsUnsorted parcels cellSize threshold)
    anomalies :=
      stableSort anomLE (analysisAnomaliesUnsorted parcels cellSize threshold) }

/-! ## Structural lemmas about the engine -/

/-- The record pushed for one parcel, when its anomaly list is non-empty. -/
def recordOf (hoodId : ℤ × ℤ) (name : String) (parcelCount : ℕ)
    (stats : MetricKey → StatsEntry) (threshold : ℚ) (p : Parcel) :
    Option AnomalyRecord :=
  let anomalies := findParcelAnomalies p stats threshold
  if anomalies.isEmpty then none
  else some { parcel := p
              hoodId := hoodId
              hoodName := name
              hoodParcelCount := parcelCount
              anomalies := anomalies
              maxSeverity := maxSeverityOf anomalies }

theorem hoodScan_eq (hoodId : ℤ × ℤ) (name : String) (parcelCount : ℕ)
    (stats : MetricKey → StatsEntry) (threshold : ℚ) (parcels : List Parcel) :
    hoodScan hoodId name parcelCount stats threshold parcels =
      ((parcels.map (fun p => (findParcelAnomalies p stats threshold).length)).sum,
       parcels.filterMap (recordOf hoodId name parcelCount stats threshold)) := by
  unfold hoodScan
  suffices h : ∀ acc : ℕ × List AnomalyRecord,
      parcels.foldl (fun acc p =>
        let anomalies := findParcelAnomalies p stats threshold
        if anomalies.isEmpty then acc
        else
          (acc.1 + anomalies.length,
           acc.2 ++ [{ parcel := p
                       hoodId := hoodId
                       hoodName := name
                       hoodParcelCount := parcelCount
                       anomalies := anomalies
                       maxSeverity := maxSeverityOf anomalies }])) acc =
      (acc.1 + (parcels.map (fun p => (findParcelAnomalies p stats threshold).length)).sum,
       acc.2 ++ parcels.filterMap (recordOf hoodId name parcelCount stats threshold)) by
    rw [h (0, [])]
    simp
  induction parcels with
  | nil => intro acc; simp
  | cons p ps ih =>
    intro acc
    rw [List.foldl_cons, List.map_cons, List.sum_cons, List.filterMap_cons]
    rcases he : (findParcelAnomalies p stats threshold).isEmpty with _ | _
    · simp only [he, Bool.false_eq_true, ite_false]
      rw [ih]
      simp only [recordOf, he, Bool.false_eq_true, ite_false]
      rw [Prod.mk.injEq]
      refine ⟨by omega, ?_⟩
      rw [List.append_assoc, List.singleton_append]
    · have hlen : (findParcelAnomalies p stats threshold).length = 0 :=
        List.isEmpty_iff_length_eq_zero.mp he
      simp only [he, ite_true]
      rw [ih]
      simp [recordOf, he, hlen]

theorem processHood_fst_anomalyCount (hood : Hood) (threshold : ℚ) :
    (processHood hood threshold).1.anomalyCount =
      (hood.parcels.map (fun p =>
        (findParcelAnomalies p (computeNeighborhoodStats hood) threshold).length)).sum := by
  simp [processHood, hoodScan_eq]

theorem processHood_snd (hood : Hood) (threshold : ℚ) :
    (processHood hood threshold).2 =
      hood.parcels.filterMap
        (recordOf hood.id (nameNeighborhood hood) hood.parcels.length
          (computeNeighborhoodStats hood) threshold) := by
  simp [processHood, hoodScan_eq]

theorem mkFlag_eq_none_of_count_lt {k : MetricKey} {v : ℚ} {st : StatsEntry}
    {t : ℚ} (h : st.count < 5) : mkFlag k v st t = none := by
  unfold mkFlag
  rw [if_pos h]

theorem mkFlag_of_z_none {k : MetricKey} {v : ℚ} {st : StatsEntry} {t : ℚ}
    (hcount : ¬ st.count < 5)
    (hz : modifiedZScore v (st.median.getD 0) st.mad = none) :
    mkFlag k v st t = none := by
  unfold mkFlag
  rw [if_neg hcount, hz]

theorem mkFlag_of_z_some {k : MetricKey} {v : ℚ} {st : StatsEntry} {t : ℚ}
    {z : ℚ} (hcount : ¬ st.count < 5)
    (hz : modifiedZScore v (st.median.getD 0) st.mad = some z) :
    mkFlag k v st t =
      (if t ≤ |z| then
        some { metric := k
               value := v
               neighborhoodMedian := st.median
               zScore := z
               direction := if 0 < z then "high" else "low"
               severity := |z| }
      else none) := by
  unfold mkFlag
  rw [if_neg hcount, hz]

theorem mkFlag_metric {k : MetricKey} {v : ℚ} {st : StatsEntry} {t : ℚ}
    {a : Anomaly} (h : mkFlag k v st t = some a) : a.metric = k := by
  by_cases hcount : st.count < 5
  · rw [mkFlag_eq_none_of_count_lt hcount] at h
    cases h
  · rcases hz : modifiedZScore v (st.median.getD 0) st.mad with _ | z
    · rw [mkFlag_of_z_none hcount hz] at h
      cases h
    · rw [mkFlag_of_z_some hcount hz] at h
      split at h
      · cases h
        rfl
      · cases h

theorem mkFlag_eq_none_of_mad_zero {k : MetricKey} {v : ℚ} {st : StatsEntry}
    {t : ℚ} (h : st.mad = some 0) : mkFlag k v st t = none := by
  by_cases hcount : st.count < 5
  · exact mkFlag_eq_none_of_count_lt hcount
  · exact mkFlag_of_z_none hcount (by rw [h]; simp [modifiedZScore])

theorem mkFlag_isSome_mono {k : MetricKey} {v : ℚ} {st : StatsEntry}
    {t1 t2 : ℚ} (h12 : t1 ≤ t2)
    (h : (mkFlag k v st t2).isSome = true) : (mkFlag k v st t1).isSome = true := by
  by_cases hcount : st.count < 5
  · rw [mkFlag_eq_none_of_count_lt hcount] at h
    exact absurd h (by simp)
  · rcases hz : modifiedZScore v (st.median.getD 0) st.mad with _ | z
    · rw [mkFlag_of_z_none hcount hz] at h
      exact absurd h (by simp)
    · rw [mkFlag_of_z_some hcount hz] at h
      rw [mkFlag_of_z_some hcount hz]
      split at h
      · rename_i ht2
        rw [if_pos (le_trans h12 ht2)]
        rfl
      · exact absurd h (by simp)

theorem of_mem_findParcelAnomalies {p : Parcel} {stats : MetricKey → StatsEntry}
    {t : ℚ} {a : Anomaly} (h : a ∈ findParcelAnomalies p stats t) :
    ∃ v, (coreScoreValue p a.metric = some v ∨ derivedValue p a.metric = some v)
      ∧ mkFlag a.metric v (stats a.metric) t = some a := by
  unfold findParcelAnomalies at h
  rcases List.mem_append.mp h with h | h <;>
    · obtain ⟨k, _, hbind⟩ := List.mem_filterMap.mp h
      obtain ⟨v, hv, hflag⟩ := Option.bind_eq_some.mp hbind
      have hmk := mkFlag_metric hflag
      subst hmk
      exact ⟨v, by simp [hv], hflag⟩

theorem findParcelAnomalies_length_mono {p : Parcel}
    {stats : MetricKey → StatsEntry} {t1 t2 : ℚ} (h12 : t1 ≤ t2) :
    (findParcelAnomalies p stats t2).length ≤ (findParcelAnomalies p stats t1).length := by
  unfold findParcelAnomalies
  rw [List.length_append, List.length_append,
    length_filterMap_eq_countP, length_filterMap_eq_countP,
    length_filterMap_eq_countP, length_filterMap_eq_countP]
  have hbind : ∀ (f : MetricKey → Option ℚ) (k : MetricKey),
      ((f k).bind (fun v => mkFlag k v (stats k) t2)).isSome = true →
      ((f k).bind (fun v => mkFlag k v (stats k) t1)).isSome = true := by
    intro f k h
    rcases hf : f k with _ | v <;> rw [hf] at h
    · exact absurd h (by simp)
    · simpa using mkFlag_isSome_mono h12 (by simpa using h)
  exact Nat.add_le_add
    (countP_le_of_imp _ (fun k _ => hbind (coreScoreValue p) k))
    (countP_le_of_imp _ (fun k _ => hbind (derivedValue p) k))

theorem findParcelAnomalies_ne_nil_mono {p : Parcel}
    {stats : MetricKey → StatsEntry} {t1 t2 : ℚ} (h12 : t1 ≤ t2)
    (h : findParcelAnomalies p stats t2 ≠ []) :
    findParcelAnomalies p stats t1 ≠ [] := by
  have h2 : 0 < (findParcelAnomalies p stats t2).length := List.length_pos.mpr h
  have := @findParcelAnomalies_length_mono p stats t1 t2 h12
  exact List.length_pos.mp (lt_of_lt_of_le h2 this)

/-! ## Lemmas about the statistics helpers -/

theorem length_sortAsc (l : List ℚ) : (sortAsc l).length = l.length :=
  length_stableSort _ l

theorem mem_sortAsc {x : ℚ} {l : List ℚ} : x ∈ sortAsc l ↔ x ∈ l :=
  mem_stableSort

theorem sortAsc_sorted (l : List ℚ) :
    (sortAsc l).Pairwise (fun a b : ℚ => a ≤ b) := by
  have h := @pairwise_stableSort ℚ (fun a b : ℚ => decide (a ≤ b))
    (fun a b hab => by
      simp only [decide_eq_false_iff_not, not_le] at hab
      simpa using hab.le)
    (fun a b c hab hbc => by
      simp only [decide_eq_true_eq] at hab hbc ⊢
      exact le_trans hab hbc) l
  exact h.imp (fun hxy => by simpa using hxy)

theorem median_of_constant {c : ℚ} {l : List ℚ} (hne : l ≠ [])
    (hc : ∀ x ∈ l, x = c) : median l = some c := by
  have hlen : l.length ≠ 0 := fun h => hne (List.length_eq_zero.mp h)
  unfold median
  rw [if_neg hlen]
  dsimp only
  have hslen : (sortAsc l).length = l.length := length_sortAsc l
  have hs : ∀ x ∈ sortAsc l, x = c := fun x hx => hc x (mem_sortAsc.mp hx)
  have hmid : (sortAsc l).length / 2 < (sortAsc l).length := by
    apply Nat.div_lt_self
    · omega
    · omega
  have hgetmid : (sortAsc l).getD ((sortAsc l).length / 2) 0 = c := by
    rw [List.getD_eq_getElem _ _ hmid]
    exact hs _ (List.getElem_mem hmid)
  split
  · rw [hgetmid]
  · have hmid1 : (sortAsc l).length / 2 - 1 < (sortAsc l).length := by omega
    have hget1 : (sortAsc l).getD ((sortAsc l).length / 2 - 1) 0 = c := by
      rw [List.getD_eq_getElem _ _ hmid1]
      exact hs _ (List.getElem_mem hmid1)
    rw [hgetmid, hget1]
    norm_num

theorem mad_of_constant {c : ℚ} {l : List ℚ} (hne : l ≠ [])
    (hc : ∀ x ∈ l, x = c) : mad l = some 0 := by
  unfold mad
  rw [median_of_constant hne hc]
  apply median_of_constant
  · simpa using hne
  · intro x hx
    obtain ⟨v, hv, rfl⟩ := List.mem_map.mp hx
    rw [hc v hv]
    simp

/-! ## Lemmas about clustering -/

theorem mem_firstKeysAux {k : ℤ × ℤ} :
    ∀ {seen l : List (ℤ × ℤ)},
      k ∈ firstKeysAux seen l ↔ k ∈ l ∧ k ∉ seen := by
  intro seen l
  induction l generalizing seen with
  | nil => simp [firstKeysAux]
  | cons a l ih =>
    rw [firstKeysAux]
    by_cases ha : a ∈ seen
    · rw [if_pos ha, ih]
      constructor
      · rintro ⟨hkl, hks⟩
        exact ⟨List.mem_cons_of_mem a hkl, hks⟩
      · rintro ⟨hk, hks⟩
        rcases List.mem_cons.mp hk with rfl | hkl
        · exact absurd ha hks
        · exact ⟨hkl, hks⟩
    · rw [if_neg ha]
      constructor
      · intro h
        rcases List.mem_cons.mp h with rfl | h
        · exact ⟨List.mem_cons_self _ _, ha⟩
        · obtain ⟨hkl, hkseen⟩ := ih.mp h
          exact ⟨List.mem_cons_of_mem a hkl,
            fun hk => hkseen (List.mem_cons_of_mem a hk)⟩
      · rintro ⟨hk, hks⟩
        by_cases hka : k = a
        · subst hka
          exact List.mem_cons_self _ _
        · rcases List.mem_cons.mp hk with rfl | hkl
          · exact absurd rfl hka
          · exact List.mem_cons_of_mem a (ih.mpr
              ⟨hkl, fun h => (List.mem_cons.mp h).elim hka hks⟩)

theorem mem_firstKeys {k : ℤ × ℤ} {l : List (ℤ × ℤ)} :
    k ∈ firstKeys l ↔ k ∈ l := by
  rw [firstKeys, mem_firstKeysAux]
  simp

/-- Membership in the cluster output: the neighborhoods are exactly the
cells built over the occupied keys. -/
theorem mem_clusterIntoNeighborhoods {parcels : List Parcel} {cellSize : ℚ}
    {h : Hood} :
    h ∈ clusterIntoNeighborhoods parcels cellSize ↔
      ∃ k, k ∈ firstKeys (parcels.map (fun p => gridKey p cellSize)) ∧
        h = { id := k
              gridRow := k.1
              gridCol := k.2
              centerLat := ((k.1 : ℚ) + 1/2) * cellSize
              centerLng := ((k.2 : ℚ) + 1/2) * cellSize
              parcels := parcels.filter (fun p => gridKey p cellSize = k) } := by
  unfold clusterIntoNeighborhoods
  rw [List.mem_map]
  constructor
  · rintro ⟨k, hk, rfl⟩
    exact ⟨k, hk, rfl⟩
  · rintro ⟨k, hk, rfl⟩
    exact ⟨k, hk, rfl⟩

theorem hood_parcels_of_mem {parcels : List Parcel} {cellSize : ℚ} {h : Hood}
    (hh : h ∈ clusterIntoNeighborhoods parcels cellSize) :
    h.parcels = parcels.filter (fun p => gridKey p cellSize = h.id) := by
  obtain ⟨k, -, rfl⟩ := mem_clusterIntoNeighborhoods.mp hh
  rfl

theorem gridKey_eq_id_of_mem {parcels : List Parcel} {cellSize : ℚ} {h : Hood}
    {p : Parcel} (hh : h ∈ clusterIntoNeighborhoods parcels cellSize)
    (hp : p ∈ h.parcels) : gridKey p cellSize = h.id ∧ p ∈ parcels := by
  rw [hood_parcels_of_mem hh] at hp
  have := List.mem_filter.mp hp
  exact ⟨by simpa using this.2, this.1⟩

/-! ## Concrete fixtures -/

/-- A parcel with no data; concrete inputs override single fields. -/
def baseParcel : Parcel :=
  { account := "", lat := 0, lng := 0, address := none, sqft_living := none,
    sqft_lot := none, year_built := none, last_sale_price := none,
    price_per_sqft := none, assessed_value := none }

/-- A parcel whose sale/assessed denominator is negative. -/
def cpC2 : Parcel :=
  { baseParcel with last_sale_price := some 100, assessed_value := some (-50) }

/-- A four-member neighborhood (below the 5-sample gate) with one extreme
`price_per_sqft` value. -/
def hood4 : Hood :=
  { id := (0, 0), gridRow := 0, gridCol := 0, centerLat := 3/2000,
    centerLng := 3/2000,
    parcels :=
      [{ baseParcel with account := "a", price_per_sqft := some 100 },
       { baseParcel with account := "b", price_per_sqft := some 110 },
       { baseParcel with account := "c", price_per_sqft := some 120 },
       { baseParcel with account := "d", price_per_sqft := some 100000 }] }

/-- A five-member neighborhood whose `price_per_sqft` values are all `7`
(zero variance) plus one extreme member to score. -/
def hoodC5 : Hood :=
  { id := (0, 0), gridRow := 0, gridCol := 0, centerLat := 3/2000,
    centerLng := 3/2000,
    parcels :=
      [{ baseParcel with account := "a", price_per_sqft := some 7 },
       { baseParcel with account := "b", price_per_sqft := some 7 },
       { baseParcel with account := "c", price_per_sqft := some 7 },
       { baseParcel with account := "d", price_per_sqft := some 7 },
       { baseParcel with account := "e", price_per_sqft := some 7 }] }

def pC5 : Parcel := { baseParcel with account := "x", price_per_sqft := some 1000 }

/-- A one-member neighborhood whose only address is a bare house number. -/
def hoodC10 : Hood :=
  { id := (0, 0), gridRow := 0, gridCol := 0, centerLat := 3/2000,
    centerLng := 3/2000,
    parcels := [{ baseParcel with account := "a", address := some "123" }] }

def pC4 : Parcel := { baseParcel with account := "w", lat := 1, lng := 2 }

/-! ## Claims -/

/-- C2 (counterexample): on a parcel whose `assessed_value` is `-50`
(non-positive), the sale/assessed ratio is the computed value `-2`, not
`null` as the claim states. -/
theorem c2_counterexample :
    cpC2.assessed_value = some (-50) ∧ ((-50 : ℚ) ≤ 0)
      ∧ saleAssessRatio cpC2 = some (-2) ∧ saleAssessRatio cpC2 ≠ none := by
  decide!

/-- C2 (amended): a derived metric is `null` exactly when either input is
missing or either input is zero (JS falsiness); negative inputs — in
particular a negative denominator — produce a computed ratio. -/
theorem c2_derived_null_iff (p : Parcel) :
    (saleAssessRatio p = none ↔
      p.last_sale_price = none ∨ p.assessed_value = none ∨
      p.last_sale_price = some 0 ∨ p.assessed_value = some 0)
    ∧ (buildingLotRatio p = none ↔
      p.sqft_living = none ∨ p.sqft_lot = none ∨
      p.sqft_living = some 0 ∨ p.sqft_lot = some 0) := by
  constructor
  · rcases hs : p.last_sale_price with _ | s <;>
      rcases ha : p.assessed_value with _ | a <;>
      simp [saleAssessRatio, hs, ha]
    tauto
  · rcases hs : p.sqft_living with _ | s <;>
      rcases ha : p.sqft_lot with _ | a <;>
      simp [buildingLotRatio, hs, ha]
    tauto

/-- C4: for every parcel list, cell size and input parcel, the produced
neighborhoods contain exactly one neighborhood holding that parcel. -/
theorem c4_cluster_partition (parcels : List Parcel) (cellSize : ℚ)
    (p : Parcel) (hp : p ∈ parcels) :
    ∃! h, h ∈ clusterIntoNeighborhoods parcels cellSize ∧ p ∈ h.parcels := by
  refine ⟨{ id := gridKey p cellSize
            gridRow := (gridKey p cellSize).1
            gridCol := (gridKey p cellSize).2
            centerLat := (((gridKey p cellSize).1 : ℚ) + 1/2) * cellSize
            centerLng := (((gridKey p cellSize).2 : ℚ) + 1/2) * cellSize
            parcels := parcels.filter
              (fun q => gridKey q cellSize = gridKey p cellSize) }, ⟨?_, ?_⟩, ?_⟩
  · exact mem_clusterIntoNeighborhoods.mpr
      ⟨gridKey p cellSize,
       mem_firstKeys.mpr (List.mem_map.mpr ⟨p, hp, rfl⟩), rfl⟩
  · exact List.mem_filter.mpr ⟨hp, by simp⟩
  · rintro h ⟨hh, hph⟩
    obtain ⟨hkey, -⟩ := gridKey_eq_id_of_mem hh hph
    obtain ⟨k, hkmem, rfl⟩ := mem_clusterIntoNeighborhoods.mp hh
    have : k = gridKey p cellSize := by
      simpa using hkey.symm
    subst this
    rfl

/-- C4 (witness): a concrete parcel in a concrete list belongs to exactly
one neighborhood. -/
theorem c4_witness :
    pC4 ∈ [pC4] ∧
      ∃! h, h ∈ clusterIntoNeighborhoods [pC4] 1 ∧ pC4 ∈ h.parcels :=
  ⟨by decide, c4_cluster_partition [pC4] 1 pC4 (by decide)⟩

/-- C5: `modifiedZScore` is `null` whenever MAD is `null` or `0`; `mad`
of a non-empty constant list is `0`; consequently a metric whose eligible
neighborhood values are all equal never yields an anomaly flag for that
metric, whatever the parcel's value. -/
theorem c5_zero_variance_never_flags :
    (∀ value med : ℚ, modifiedZScore value med none = none
      ∧ modifiedZScore value med (some 0) = none)
    ∧ (∀ (c : ℚ) (l : List ℚ), l ≠ [] → (∀ x ∈ l, x = c) → mad l = some 0)
    ∧ (∀ (hood : Hood) (k : MetricKey) (p : Parcel) (t : ℚ),
        (∀ x ∈ eligibleValues hood.parcels k,
          ∀ y ∈ eligibleValues hood.parcels k, x = y) →
        ∀ a ∈ findParcelAnomalies p (computeNeighborhoodStats hood) t,
          a.metric ≠ k) := by
  refine ⟨fun value med => ⟨rfl, by simp [modifiedZScore]⟩,
    fun c l hne hc => mad_of_constant hne hc, ?_⟩
  intro hood k p t hvar a ha hak
  obtain ⟨v, -, hflag⟩ := of_mem_findParcelAnomalies ha
  rw [hak] at hflag
  rcases hvals : eligibleValues hood.parcels k with _ | ⟨v0, rest⟩
  · have hcount : (computeNeighborhoodStats hood k).count < 5 := by
      simp [computeNeighborhoodStats, statsOf, hvals]
    rw [mkFlag_eq_none_of_count_lt hcount] at hflag
    cases hflag
  · have hconst : ∀ x ∈ eligibleValues hood.parcels k, x = v0 := fun x hx =>
      hvar x hx v0 (by rw [hvals]; exact List.mem_cons_self _ _)
    have hmad : (computeNeighborhoodStats hood k).mad = some 0 :=
      mad_of_constant (l := eligibleValues hood.parcels k)
        (by rw [hvals]; simp) hconst
    rw [mkFlag_eq_none_of_mad_zero hmad] at hflag
    cases hflag

/-- C5 (witness): concrete zero-MAD inputs and a concrete zero-variance
neighborhood in which an extreme parcel is not flagged. -/
theorem c5_witness :
    modifiedZScore 42 7 (some 0) = none
    ∧ mad [3, 3, 3] = some 0
    ∧ (∀ a ∈ findParcelAnomalies pC5 (computeNeighborhoodStats hoodC5) 3,
        a.metric ≠ MetricKey.price_per_sqft) :=
  ⟨(c5_zero_variance_never_flags.1 42 7).2,
   c5_zero_variance_never_flags.2.1 3 [3, 3, 3] (by decide) (by decide),
   c5_zero_variance_never_flags.2.2 hoodC5 .price_per_sqft pC5 3 (by decide)⟩

/-- C8: a metric whose neighborhood stats have `count < 5` is never
flagged for any parcel; yet `computeNeighborhoodStats` on a four-member
neighborhood still reports `count = 4` and the full stats record — the
five-sample gate affects scoring only. -/
theorem c8_five_sample_gate_scoring_only :
    (∀ (p : Parcel) (stats : MetricKey → StatsEntry) (t : ℚ) (k : MetricKey),
        (stats k).count < 5 →
        ∀ a ∈ findParcelAnomalies p stats t, a.metric ≠ k)
    ∧ (computeNeighborhoodStats hood4 .price_per_sqft).count = 4
    ∧ computeNeighborhoodStats hood4 .price_per_sqft =
        { count := 4, median := some 115, mad := some 10,
          mean := some (50165/2), min := some 100, max := some 100000,
          p10 := some 103, p90 := some 70036 }
    ∧ (∀ p ∈ hood4.parcels,
        findParcelAnomalies p (computeNeighborhoodStats hood4) 3 = []) := by
  refine ⟨?_, by decide!, by decide!, by decide!⟩
  intro p stats t k hcount a ha hak
  obtain ⟨v, -, hflag⟩ := of_mem_findParcelAnomalies ha
  rw [hak] at hflag
  rw [mkFlag_eq_none_of_count_lt hcount] at hflag
  cases hflag

/-- C8 (witness): the general under-5 gate applied at a concrete metric
with zero samples in the concrete four-member neighborhood. -/
theorem c8_witness :
    (computeNeighborhoodStats hood4 MetricKey.sqft_lot).count < 5
    ∧ (∀ a ∈ findParcelAnomalies pC5 (computeNeighborhoodStats hood4) 3,
        a.metric ≠ MetricKey.sqft_lot) :=
  ⟨by decide,
   c8_five_sample_gate_scoring_only.1 pC5 (computeNeighborhoodStats hood4) 3
     MetricKey.sqft_lot (by decide)⟩

theorem streetCounts_eq_nil {ps : List Parcel}
    (h : ∀ p ∈ ps, ∀ a, p.address = some a → streetOf a = "") :
    streetCounts ps = [] := by
  unfold streetCounts
  suffices haux : ∀ acc : List (String × ℕ),
      (∀ p ∈ ps, ∀ a, p.address = some a → streetOf a = "") →
      ps.foldl (fun acc p =>
        match p.address with
        | none => acc
        | some a =>
          let street := streetOf a
          if street = "" then acc else bumpCount street acc) acc = acc by
    exact haux [] h
  clear h
  induction ps with
  | nil => intro acc _; rfl
  | cons p ps ih =>
    intro acc hall
    rw [List.foldl_cons]
    have hstep : (match p.address with
        | none => acc
        | some a =>
          let street := streetOf a
          if street = "" then acc else bumpCount street acc) = acc := by
      rcases haddr : p.address with _ | a
      · rfl
      · have := hall p (by simp) a haddr
        simp [this]
    rw [hstep]
    exact ih acc (fun q hq a ha => hall q (by simp [hq]) a ha)

/-- C10: when every member has an address but no member's address yields a
non-empty street string (for example a bare house number such as `"123"`),
`nameNeighborhood` still returns the `Area {id}` fallback: the fallback
triggers whenever the street tally is empty, not only when no member has
an address. -/
theorem c10_area_fallback (hood : Hood) (hne : hood.parcels ≠ [])
    (haddr : ∀ p ∈ hood.parcels, p.address.map streetOf = some "") :
    nameNeighborhood hood = "Area " ++ idStr hood.id := by
  have hcounts : streetCounts hood.parcels = [] := by
    apply streetCounts_eq_nil
    intro p hp a ha
    have := haddr p hp
    rw [ha] at this
    simpa using this
  unfold nameNeighborhood
  rw [if_neg (by simpa using fun h => hne (List.length_eq_zero.mp h))]
  dsimp only
  rw [hcounts]
  rfl

/-- C10 (witness): a concrete one-member neighborhood whose only address
is the bare house number `"123"` is named by the fallback. -/
theorem c10_witness :
    hoodC10.parcels ≠ []
    ∧ nameNeighborhood hoodC10 = "Area " ++ idStr hoodC10.id :=
  ⟨by decide, c10_area_fallback hoodC10 (by decide) (by decide!)⟩

/-- Six parcels in one grid cell; the last is an extreme outlier on both
`price_per_sqft` and `sqft_living`, so it is flagged on two metrics. -/
def ps6 : List Parcel :=
  [{ baseParcel with account := "a", price_per_sqft := some 100, sqft_living := some 1000 },
   { baseParcel with account := "b", price_per_sqft := some 101, sqft_living := some 1010 },
   { baseParcel with account := "c", price_per_sqft := some 102, sqft_living := some 1020 },
   { baseParcel with account := "d", price_per_sqft := some 103, sqft_living := some 1030 },
   { baseParcel with account := "e", price_per_sqft := some 104, sqft_living := some 1040 },
   { baseParcel with account := "f", price_per_sqft := some 1000, sqft_living := some 10000 }]

/-- The single neighborhood `ps6` clusters into at cell size `0.003`. -/
def hoodC1 : Hood :=
  { id := (0, 0), gridRow := 0, gridCol := 0, centerLat := 3/2000,
    centerLng := 3/2000, parcels := ps6 }

/-- C1 (counterexample): on `ps6`, the unique neighborhood reports
`anomalyCount = 2` although only one member parcel has a non-empty
`findParcelAnomalies` result — `anomalyCount` advances by the number of
flagged metrics, not by one per flagged parcel. -/
theorem c1_counterexample :
    ((runAnalysis ps6 (3/1000) 3).neighborhoods.map (fun h => h.anomalyCount)) = [2]
    ∧ ((clusterIntoNeighborhoods ps6 (3/1000)).map (fun hood =>
        hood.parcels.countP (fun p =>
          !(findParcelAnomalies p (computeNeighborhoodStats hood) 3).isEmpty))) = [1] := by
  decide!

/-- C1 (amended): in the result of `runAnalysis`, each neighborhood's
`anomalyCount` equals the total number of per-metric anomaly flags over
its member parcels (the sum of the `findParcelAnomalies` lengths):
processing a flagged parcel increments the count by the number of flagged
metrics. -/
theorem c1_anomaly_count_eq_total_flags (parcels : List Parcel)
    (cellSize threshold : ℚ) (hr : HoodResult)
    (hhr : hr ∈ (runAnalysis parcels cellSize threshold).neighborhoods) :
    ∃ hood ∈ clusterIntoNeighborhoods parcels cellSize,
      hr.id = hood.id ∧
      hr.anomalyCount = (hood.parcels.map (fun p =>
        (findParcelAnomalies p (computeNeighborhoodStats hood) threshold).length)).sum := by
  have h1 : hr ∈ analysisNeighborhoodsUnsorted parcels cellSize threshold :=
    mem_stableSort.mp hhr
  unfold analysisNeighborhoodsUnsorted at h1
  rw [List.map_map] at h1
  obtain ⟨hood, hmem, rfl⟩ := List.mem_map.mp h1
  exact ⟨hood, hmem, rfl, processHood_fst_anomalyCount hood threshold⟩

/-- C1 (witness): the amended statement applied to the concrete result
neighborhood of `ps6`. -/
theorem c1_witness :
    ((processHood hoodC1 3).1 ∈ (runAnalysis ps6 (3/1000) 3).neighborhoods)
    ∧ ∃ hood ∈ clusterIntoNeighborhoods ps6 (3/1000),
        (processHood hoodC1 3).1.id = hood.id ∧
        (processHood hoodC1 3).1.anomalyCount = (hood.parcels.map (fun p =>
          (findParcelAnomalies p (computeNeighborhoodStats hood) 3).length)).sum :=
  ⟨by decide!,
   c1_anomaly_count_eq_total_flags ps6 (3/1000) 3 (processHood hoodC1 3).1 (by decide!)⟩

theorem processHood_snd_length (hood : Hood) (t : ℚ) :
    (processHood hood t).2.length =
      hood.parcels.countP (fun p =>
        !(findParcelAnomalies p (computeNeighborhoodStats hood) t).isEmpty) := by
  rw [processHood_snd, length_filterMap_eq_countP]
  apply List.countP_congr
  intro p _
  unfold recordOf
  rcases he : (findParcelAnomalies p (computeNeighborhoodStats hood) t).isEmpty with _ | _ <;>
    simp [he]

/-- C6: with parcels and cell size fixed, raising the threshold never
lengthens the anomalies list returned by `runAnalysis`. -/
theorem c6_threshold_monotone (parcels : List Parcel) (cellSize t1 t2 : ℚ)
    (h12 : t1 ≤ t2) :
    (runAnalysis parcels cellSize t2).anomalies.length ≤
      (runAnalysis parcels cellSize t1).anomalies.length := by
  show (stableSort anomLE (analysisAnomaliesUnsorted parcels cellSize t2)).length ≤
    (stableSort anomLE (analysisAnomaliesUnsorted parcels cellSize t1)).length
  rw [length_stableSort, length_stableSort]
  unfold analysisAnomaliesUnsorted
  rw [List.length_flatten, List.length_flatten, List.map_map, List.map_map,
    List.map_map, List.map_map]
  apply natSum_le_natSum
  intro hood _
  show (processHood hood t2).2.length ≤ (processHood hood t1).2.length
  rw [processHood_snd_length, processHood_snd_length]
  apply countP_le_of_imp
  intro p _ h2
  have hne : findParcelAnomalies p (computeNeighborhoodStats hood) t2 ≠ [] := by
    intro hnil
    rw [hnil] at h2
    simp at h2
  have := findParcelAnomalies_ne_nil_mono h12 hne
  simpa [List.isEmpty_iff] using this

/-- C6 (witness): the monotonicity applied to the concrete `ps6` input at
thresholds `3 ≤ 400`; the higher threshold empties the anomaly list. -/
theorem c6_witness :
    (runAnalysis ps6 (3/1000) 400).anomalies.length ≤
      (runAnalysis ps6 (3/1000) 3).anomalies.length :=
  c6_threshold_monotone ps6 (3/1000) 3 400 (by norm_num)

/-- C9: `runAnalysis` returns the anomalies as a permutation of the
accumulation list, sorted descending by `maxSeverity`, with ties kept in
accumulation order (the filter at each severity value is unchanged); the
neighborhoods are a permutation of the accumulated results sorted
descending by `anomalyCount` and then by `parcelCount`. -/
theorem c9_result_sorted (parcels : List Parcel) (cellSize threshold : ℚ) :
    List.Perm (runAnalysis parcels cellSize threshold).anomalies
      (analysisAnomaliesUnsorted parcels cellSize threshold)
    ∧ (runAnalysis parcels cellSize threshold).anomalies.Pairwise
        (fun a b => b.maxSeverity ≤ a.maxSeverity)
    ∧ (∀ v : ℚ,
        (runAnalysis parcels cellSize threshold).anomalies.filter
          (fun a => decide (a.maxSeverity = v)) =
        (analysisAnomaliesUnsorted parcels cellSize threshold).filter
          (fun a => decide (a.maxSeverity = v)))
    ∧ List.Perm (runAnalysis parcels cellSize threshold).neighborhoods
        (analysisNeighborhoodsUnsorted parcels cellSize threshold)
    ∧ (runAnalysis parcels cellSize threshold).neighborhoods.Pairwise
        (fun a b => b.anomalyCount < a.anomalyCount ∨
          (b.anomalyCount = a.anomalyCount ∧ b.parcelCount ≤ a.parcelCount)) := by
  have hAtotal : ∀ a b : AnomalyRecord, anomLE a b = false → anomLE b a = true := by
    intro a b hab
    simp only [anomLE, decide_eq_false_iff_not, not_le] at hab
    simp only [anomLE, decide_eq_true_eq]
    exact hab.le
  have hAtrans : ∀ a b c : AnomalyRecord,
      anomLE a b = true → anomLE b c = true → anomLE a c = true := by
    intro a b c hab hbc
    simp only [anomLE, decide_eq_true_eq] at hab hbc ⊢
    exact le_trans hbc hab
  have hHtotal : ∀ a b : HoodResult, hoodLE a b = false → hoodLE b a = true := by
    intro a b hab
    simp only [hoodLE, decide_eq_false_iff_not, not_or, not_and, not_lt, not_le] at hab
    simp only [hoodLE, decide_eq_true_eq]
    omega
  have hHtrans : ∀ a b c : HoodResult,
      hoodLE a b = true → hoodLE b c = true → hoodLE a c = true := by
    intro a b c hab hbc
    simp only [hoodLE, decide_eq_true_eq] at hab hbc ⊢
    omega
  refine ⟨stableSort_perm _ _, ?_, ?_, stableSort_perm _ _, ?_⟩
  · have h := pairwise_stableSort hAtotal hAtrans
      (analysisAnomaliesUnsorted parcels cellSize threshold)
    exact h.imp (fun hxy => by simpa [anomLE] using hxy)
  · intro v
    apply filter_stableSort
    intro x y hx hy
    simp only [decide_eq_true_eq] at hx hy
    simp [anomLE, hx, hy]
  · have h := pairwise_stableSort hHtotal hHtrans
      (analysisNeighborhoodsUnsorted parcels cellSize threshold)
    exact h.imp (fun hxy => by simpa [hoodLE] using hxy)

/-! ## C3: cell-size refinement -/

theorem floor_div_eq_of_floor_eq {x y c' : ℚ} (_hc : 0 < c') {n : ℕ}
    (hn : 0 < n) (hxy : ⌊x / c'⌋ = ⌊y / c'⌋) :
    ⌊x / ((n : ℚ) * c')⌋ = ⌊y / ((n : ℚ) * c')⌋ := by
  have key : ∀ u : ℚ, ⌊u / (n : ℚ)⌋ = ⌊((⌊u⌋ : ℚ)) / (n : ℚ)⌋ := by
    intro u
    have hn' : (0 : ℚ) < (n : ℚ) := by exact_mod_cast hn
    have h1 : ((⌊((⌊u⌋ : ℚ)) / (n : ℚ)⌋ : ℚ)) ≤ ((⌊u⌋ : ℚ)) / (n : ℚ) :=
      Int.floor_le _
    have h2 : ((⌊u⌋ : ℚ)) / (n : ℚ) < ⌊((⌊u⌋ : ℚ)) / (n : ℚ)⌋ + 1 :=
      Int.lt_floor_add_one _
    have h3 : ((⌊u⌋ : ℚ)) ≤ u := Int.floor_le u
    have h4 : u < ⌊u⌋ + 1 := Int.lt_floor_add_one u
    have h5 : ((⌊u⌋ : ℚ)) < ((⌊((⌊u⌋ : ℚ)) / (n : ℚ)⌋ : ℚ) + 1) * (n : ℚ) := by
      have := mul_lt_mul_of_pos_right h2 hn'
      rw [div_mul_cancel₀ _ (ne_of_gt hn')] at this
      exact this
    have h6 : ⌊u⌋ < (⌊((⌊u⌋ : ℚ)) / (n : ℚ)⌋ + 1) * (n : ℤ) := by
      exact_mod_cast h5
    have h7 : (⌊u⌋ : ℤ) + 1 ≤ (⌊((⌊u⌋ : ℚ)) / (n : ℚ)⌋ + 1) * (n : ℤ) := h6
    rw [Int.floor_eq_iff]
    constructor
    · calc ((⌊((⌊u⌋ : ℚ)) / (n : ℚ)⌋ : ℚ)) ≤ ((⌊u⌋ : ℚ)) / (n : ℚ) := h1
        _ ≤ u / (n : ℚ) := by gcongr
    · have h8 : u / (n : ℚ) < (((⌊u⌋ : ℚ)) + 1) / (n : ℚ) := by gcongr
      have h9 : (((⌊u⌋ : ℚ)) + 1) / (n : ℚ) ≤ ⌊((⌊u⌋ : ℚ)) / (n : ℚ)⌋ + 1 := by
        rw [div_le_iff₀ hn']
        exact_mod_cast h7
      linarith
  have hrw : ∀ a : ℚ, a / ((n : ℚ) * c') = (a / c') / (n : ℚ) := by
    intro a
    rw [div_div, mul_comm]
  rw [hrw x, hrw y, key (x / c'), key (y / c'), hxy]

theorem gridKey_mul_of_eq {q p : Parcel} {c' : ℚ} (hc : 0 < c') {n : ℕ}
    (hn : 0 < n) (h : gridKey q c' = gridKey p c') :
    gridKey q ((n : ℚ) * c') = gridKey p ((n : ℚ) * c') := by
  unfold gridKey at h ⊢
  rw [Prod.mk.injEq] at h ⊢
  exact ⟨floor_div_eq_of_floor_eq hc hn h.1, floor_div_eq_of_floor_eq hc hn h.2⟩

/-- The claim of C3, as stated, for one input. -/
@[reducible] def c3Statement (parcels : List Parcel) (k : MetricKey) (c c' : ℚ) : Prop :=
  c' < c →
    ((∀ h' ∈ clusterIntoNeighborhoods parcels c', ∀ p ∈ h'.parcels,
        ∀ h ∈ clusterIntoNeighborhoods parcels c, p ∈ h.parcels →
          (eligibleValues h'.parcels k).length ≤ (eligibleValues h.parcels k).length)
     ∧ (clusterIntoNeighborhoods parcels c').countP
          (fun h => decide (5 ≤ (eligibleValues h.parcels k).length))
        ≤ (clusterIntoNeighborhoods parcels c).countP
          (fun h => decide (5 ≤ (eligibleValues h.parcels k).length)))

/-- Two parcels at latitudes 1.9 and 2.1: separate cells at size 2, one
cell at size 1.5. -/
def psA : List Parcel :=
  [{ baseParcel with account := "a", lat := 19/10, price_per_sqft := some 1 },
   { baseParcel with account := "b", lat := 21/10, price_per_sqft := some 1 }]

/-- Ten parcels, five at latitude 0.1 and five at latitude 1.1: one cell
of ten samples at size 2, two cells of five at size 1. -/
def psB : List Parcel :=
  [{ baseParcel with account := "a", lat := 1/10, price_per_sqft := some 1 },
   { baseParcel with account := "b", lat := 1/10, price_per_sqft := some 1 },
   { baseParcel with account := "c", lat := 1/10, price_per_sqft := some 1 },
   { baseParcel with account := "d", lat := 1/10, price_per_sqft := some 1 },
   { baseParcel with account := "e", lat := 1/10, price_per_sqft := some 1 },
   { baseParcel with account := "f", lat := 11/10, price_per_sqft := some 1 },
   { baseParcel with account := "g", lat := 11/10, price_per_sqft := some 1 },
   { baseParcel with account := "h", lat := 11/10, price_per_sqft := some 1 },
   { baseParcel with account := "i", lat := 11/10, price_per_sqft := some 1 },
   { baseParcel with account := "j", lat := 11/10, price_per_sqft := some 1 }]

/-- C3 (counterexample): both conjuncts of the claim fail.  On `psA`
(cell sizes 1.5 < 2, not an integer refinement) a parcel's eligible
sample count grows from 1 to 2 under the smaller cell; on `psB` (cell
sizes 1 < 2) one eligible neighborhood of ten samples splits into two
eligible neighborhoods of five, so the number of scoring-eligible
neighborhoods rises from 1 to 2. -/
theorem c3_counterexample :
    ¬ c3Statement psA MetricKey.price_per_sqft 2 (3/2)
    ∧ ¬ c3Statement psB MetricKey.price_per_sqft 2 1 := by
  decide!

/-- C3 (amended): when the larger cell size is a positive integer
multiple of the smaller (so the fine grid refines the coarse one), a
parcel's neighborhood under the smaller cell size never has a larger
eligible-sample count than its neighborhood under the larger one; in
particular a parcel that reaches the 5-sample scoring eligibility under
the fine grid also reaches it under the coarse grid.  (The count of
eligible neighborhoods can still rise when one coarse cell splits into
several eligible fine cells, as the counterexample shows.) -/
theorem c3_refinement_sample_monotone (parcels : List Parcel) (k : MetricKey)
    (c' : ℚ) (n : ℕ) (hc : 0 < c') (hn : 0 < n)
    (h' : Hood) (hh' : h' ∈ clusterIntoNeighborhoods parcels c')
    (p : Parcel) (hp : p ∈ h'.parcels)
    (h : Hood) (hh : h ∈ clusterIntoNeighborhoods parcels ((n : ℚ) * c'))
    (hph : p ∈ h.parcels) :
    (eligibleValues h'.parcels k).length ≤ (eligibleValues h.parcels k).length
    ∧ (5 ≤ (eligibleValues h'.parcels k).length →
        5 ≤ (eligibleValues h.parcels k).length) := by
  obtain ⟨hk', -⟩ := gridKey_eq_id_of_mem hh' hp
  obtain ⟨hk, -⟩ := gridKey_eq_id_of_mem hh hph
  have hsub : h'.parcels.Sublist h.parcels := by
    rw [hood_parcels_of_mem hh', hood_parcels_of_mem hh]
    apply List.monotone_filter_right
    intro q hq
    simp only [decide_eq_true_eq] at hq ⊢
    exact (gridKey_mul_of_eq hc hn (hq.trans hk'.symm)).trans hk
  have hlen : (eligibleValues h'.parcels k).length ≤
      (eligibleValues h.parcels k).length := by
    unfold eligibleValues
    split
    · exact (hsub.filterMap _).length_le
    · exact (hsub.filterMap _).length_le
  exact ⟨hlen, fun h5 => le_trans h5 hlen⟩

/-- The cell of `pC4` at cell size 1. -/
def hC3fine : Hood :=
  { id := (1, 2), gridRow := 1, gridCol := 2, centerLat := 3/2,
    centerLng := 5/2, parcels := [pC4] }

/-- The cell of `pC4` at cell size 2. -/
def hC3coarse : Hood :=
  { id := (0, 1), gridRow := 0, gridCol := 1, centerLat := 1,
    centerLng := 3, parcels := [pC4] }

/-- C3 (witness): the amended refinement monotonicity applied to the
concrete one-parcel input at cell sizes 1 and 2 (an integer multiple). -/
theorem c3_witness :
    (eligibleValues hC3fine.parcels MetricKey.price_per_sqft).length ≤
      (eligibleValues hC3coarse.parcels MetricKey.price_per_sqft).length
    ∧ (5 ≤ (eligibleValues hC3fine.parcels MetricKey.price_per_sqft).length →
        5 ≤ (eligibleValues hC3coarse.parcels MetricKey.price_per_sqft).length) :=
  c3_refinement_sample_monotone [pC4] MetricKey.price_per_sqft 1 2
    (by norm_num) (by norm_num)
    hC3fine (by decide!) pC4 (by decide)
    hC3coarse (by decide!) (by decide)

/-! ## C7: percentile interpolation ordering -/

theorem sorted_getD_mono {s : List ℚ}
    (hs : s.Pairwise (fun a b : ℚ => a ≤ b))
    {i j : ℕ} (hij : i ≤ j) (hj : j < s.length) :
    s.getD i 0 ≤ s.getD j 0 := by
  rcases Nat.eq_or_lt_of_le hij with rfl | hlt
  · exact le_refl _
  · have hi : i < s.length := lt_trans hlt hj
    rw [List.getD_eq_getElem _ _ hi, List.getD_eq_getElem _ _ hj]
    exact List.pairwise_iff_getElem.mp hs i j hi hj hlt

theorem interpAt_between {s : List ℚ}
    (hs : s.Pairwise (fun a b : ℚ => a ≤ b))
    {idx : ℚ} (h0 : 0 ≤ idx) (h1 : idx ≤ (s.length : ℚ) - 1) :
    s.getD ⌊idx⌋.toNat 0 ≤ interpAt s idx
    ∧ interpAt s idx ≤ s.getD ⌈idx⌉.toNat 0 := by
  have hlo0 : 0 ≤ ⌊idx⌋ := Int.le_floor.mpr (by exact_mod_cast h0)
  have hhi : ⌈idx⌉ ≤ (s.length : ℤ) - 1 := Int.ceil_le.mpr (by push_cast; linarith)
  have hlohi : ⌊idx⌋ ≤ ⌈idx⌉ := Int.floor_le_ceil idx
  have hn1 : 1 ≤ s.length := by
    by_contra hcon
    have : s.length = 0 := by omega
    rw [this] at h1
    norm_num at h1
    linarith
  have hhiN : ⌈idx⌉.toNat < s.length := by omega
  have hmono' : s.getD ⌊idx⌋.toNat 0 ≤ s.getD ⌈idx⌉.toNat 0 :=
    sorted_getD_mono hs (by omega) hhiN
  unfold interpAt
  dsimp only
  by_cases heq : ⌊idx⌋ = ⌈idx⌉
  · rw [if_pos heq]
    exact ⟨le_refl _, by rw [heq]⟩
  · rw [if_neg heq]
    have hfrac0 : 0 ≤ idx - (⌊idx⌋ : ℚ) := sub_nonneg.mpr (Int.floor_le idx)
    have hfrac1 : idx - (⌊idx⌋ : ℚ) ≤ 1 := by
      have := Int.lt_floor_add_one idx
      linarith
    have hd : 0 ≤ s.getD ⌈idx⌉.toNat 0 - s.getD ⌊idx⌋.toNat 0 :=
      sub_nonneg.mpr hmono'
    constructor
    · nlinarith [mul_nonneg hd hfrac0]
    · nlinarith [mul_nonneg hd (by linarith : (0:ℚ) ≤ 1 - (idx - (⌊idx⌋ : ℚ)))]

theorem interpAt_int {s : List ℚ} {idx : ℚ} (h : ⌊idx⌋ = ⌈idx⌉) :
    interpAt s idx = s.getD ⌊idx⌋.toNat 0 := by
  unfold interpAt
  dsimp only
  rw [if_pos h]

theorem interpAt_mono {s : List ℚ}
    (hs : s.Pairwise (fun a b : ℚ => a ≤ b))
    {i j : ℚ} (h0 : 0 ≤ i) (hij : i ≤ j) (hj : j ≤ (s.length : ℚ) - 1) :
    interpAt s i ≤ interpAt s j := by
  have h0j : 0 ≤ j := le_trans h0 hij
  have hi1 : i ≤ (s.length : ℚ) - 1 := le_trans hij hj
  have hn1 : 1 ≤ s.length := by
    have h := le_trans h0j hj
    exact_mod_cast (by linarith : (1:ℚ) ≤ (s.length : ℚ))
  have hjfl : ⌊j⌋ ≤ (s.length : ℤ) - 1 := by
    have h1 := Int.floor_le_floor hij
    have h2 : ⌊j⌋ ≤ ⌊(s.length : ℚ) - 1⌋ := Int.floor_le_floor hj
    have h3 : ⌊(s.length : ℚ) - 1⌋ = (s.length : ℤ) - 1 := by
      rw [show ((s.length : ℚ) - 1) = (((s.length : ℤ) - 1 : ℤ) : ℚ) by push_cast; ring,
        Int.floor_intCast]
    omega
  rcases lt_or_eq_of_le (Int.floor_le_floor hij : ⌊i⌋ ≤ ⌊j⌋) with hff | hff
  · have h1 : interpAt s i ≤ s.getD ⌈i⌉.toNat 0 := (interpAt_between hs h0 hi1).2
    have h2 : s.getD ⌊j⌋.toNat 0 ≤ interpAt s j := (interpAt_between hs h0j hj).1
    have h3 : s.getD ⌈i⌉.toNat 0 ≤ s.getD ⌊j⌋.toNat 0 := by
      apply sorted_getD_mono hs
      · have := Int.ceil_le_floor_add_one i
        omega
      · omega
    linarith
  · by_cases hii : ⌊i⌋ = ⌈i⌉
    · rw [interpAt_int hii, hff]
      exact (interpAt_between hs h0j hj).1
    · by_cases hjj : ⌊j⌋ = ⌈j⌉
      · have hji : j = (⌊j⌋ : ℚ) := by
          have h1 := Int.floor_le j
          have h2 := Int.le_ceil j
          rw [← hjj] at h2
          linarith
        have hij' : i = j := by
          have h3 : (⌊i⌋ : ℚ) ≤ i := Int.floor_le i
          have h4 : j ≤ i := by
            calc j = (⌊j⌋ : ℚ) := hji
              _ = (⌊i⌋ : ℚ) := by rw [hff]
              _ ≤ i := h3
          linarith
        rw [hij']
      · have hci : ⌈i⌉ = ⌊i⌋ + 1 := by
          have h1 := Int.ceil_le_floor_add_one i
          have h2 := Int.floor_le_ceil i
          omega
        have hcj : ⌈j⌉ = ⌊j⌋ + 1 := by
          have h1 := Int.ceil_le_floor_add_one j
          have h2 := Int.floor_le_ceil j
          omega
        unfold interpAt
        dsimp only
        rw [if_neg hii, if_neg hjj, hci, hcj, hff]
        have hlo0 : 0 ≤ ⌊j⌋ := by
          have := Int.le_floor.mpr (show ((0:ℤ):ℚ) ≤ i by exact_mod_cast h0)
          omega
        have hd : 0 ≤ s.getD (⌊j⌋ + 1).toNat 0 - s.getD ⌊j⌋.toNat 0 := by
          apply sub_nonneg.mpr
          apply sorted_getD_mono hs (by omega)
          have hhj : ⌈j⌉ ≤ (s.length : ℤ) - 1 :=
            Int.ceil_le.mpr (by push_cast; linarith)
          omega
        nlinarith [mul_nonneg hd (sub_nonneg.mpr hij)]

theorem median_eq_percentile_50 {arr : List ℚ} (hne : arr.length ≠ 0) :
    median arr = percentile arr 50 := by
  unfold median percentile
  rw [if_neg hne, if_neg hne]
  dsimp only
  have hslen : (sortAsc arr).length = arr.length := length_sortAsc arr
  set s := sortAsc arr with hsdef
  set n := s.length with hndef
  have hn0 : n ≠ 0 := by omega
  rcases Nat.even_or_odd n with ⟨m, hm⟩ | ⟨m, hm⟩
  · have hm1 : 1 ≤ m := by omega
    have hidx2 : (50:ℚ)/100 * ((n:ℚ) - 1) = (m:ℚ) - 1/2 := by
      rw [hm]; push_cast; ring
    have hfl : ⌊(50:ℚ)/100 * ((n:ℚ) - 1)⌋ = (m:ℤ) - 1 := by
      rw [hidx2, Int.floor_eq_iff]
      push_cast
      constructor <;> linarith
    have hcl : ⌈(50:ℚ)/100 * ((n:ℚ) - 1)⌉ = (m:ℤ) := by
      rw [hidx2, Int.ceil_eq_iff]
      push_cast
      constructor <;> linarith
    have hpar : ¬ (n % 2 ≠ 0) := by omega
    rw [if_neg hpar]
    unfold interpAt
    dsimp only
    rw [hfl, hcl, if_neg (by omega)]
    have h1 : ((m:ℤ) - 1).toNat = m - 1 := by omega
    have h2 : ((m:ℤ)).toNat = m := by omega
    have h3 : n / 2 = m := by omega
    have h4 : n / 2 - 1 = m - 1 := by omega
    rw [h1, h2, h4, h3]
    have h5 : (50:ℚ)/100 * ((n:ℚ) - 1) - (((m:ℤ) - 1 : ℤ) : ℚ) = 1/2 := by
      rw [hidx2]; push_cast; ring
    rw [h5]
    congr 1
    ring
  · have hidx2 : (50:ℚ)/100 * ((n:ℚ) - 1) = (m:ℚ) := by
      rw [hm]; push_cast; ring
    have hfl : ⌊(50:ℚ)/100 * ((n:ℚ) - 1)⌋ = (m:ℤ) := by
      rw [hidx2]
      exact_mod_cast Int.floor_natCast (α := ℚ) m
    have hcl : ⌈(50:ℚ)/100 * ((n:ℚ) - 1)⌉ = (m:ℤ) := by
      rw [hidx2]
      exact_mod_cast Int.ceil_natCast (α := ℚ) m
    have hpar : n % 2 ≠ 0 := by omega
    rw [if_pos hpar]
    unfold interpAt
    dsimp only
    rw [hfl, hcl, if_pos rfl]
    have h2 : ((m:ℤ)).toNat = m := by omega
    have h3 : n / 2 = m := by omega
    rw [h2, h3]

/-- C7: whenever a metric's neighborhood stats are computed from at least
one eligible sample, the reported interpolated percentiles and median
satisfy `p10 ≤ median ≤ p90`. -/
theorem c7_p10_le_median_le_p90 (hood : Hood) (k : MetricKey)
    (hcount : 1 ≤ (computeNeighborhoodStats hood k).count) :
    ∃ a b c : ℚ,
      (computeNeighborhoodStats hood k).p10 = some a
      ∧ (computeNeighborhoodStats hood k).median = some b
      ∧ (computeNeighborhoodStats hood k).p90 = some c
      ∧ a ≤ b ∧ b ≤ c := by
  have hlen : (eligibleValues hood.parcels k).length ≠ 0 := by
    have hc : (computeNeighborhoodStats hood k).count =
        (eligibleValues hood.parcels k).length := rfl
    omega
  have hp10 : (computeNeighborhoodStats hood k).p10 =
      percentile (eligibleValues hood.parcels k) 10 := rfl
  have hmed : (computeNeighborhoodStats hood k).median =
      median (eligibleValues hood.parcels k) := rfl
  have hp90 : (computeNeighborhoodStats hood k).p90 =
      percentile (eligibleValues hood.parcels k) 90 := rfl
  have hslen : (sortAsc (eligibleValues hood.parcels k)).length =
      (eligibleValues hood.parcels k).length :=
    length_sortAsc _
  have hsort := sortAsc_sorted (eligibleValues hood.parcels k)
  set s := sortAsc (eligibleValues hood.parcels k) with hsdef
  have hn1 : (1:ℚ) ≤ (s.length : ℚ) := by
    exact_mod_cast (by omega : 1 ≤ s.length)
  have hnn : (0:ℚ) ≤ (s.length : ℚ) - 1 := by linarith
  have hperc : ∀ p : ℚ, percentile (eligibleValues hood.parcels k) p =
      some (interpAt s (p / 100 * ((s.length : ℚ) - 1))) := by
    intro p
    unfold percentile
    rw [if_neg hlen]
  refine ⟨interpAt s ((10:ℚ) / 100 * ((s.length : ℚ) - 1)),
    interpAt s ((50:ℚ) / 100 * ((s.length : ℚ) - 1)),
    interpAt s ((90:ℚ) / 100 * ((s.length : ℚ) - 1)),
    by rw [hp10, hperc], ?_, by rw [hp90, hperc], ?_, ?_⟩
  · rw [hmed, median_eq_percentile_50 hlen, hperc]
  · apply interpAt_mono hsort
    · positivity
    · nlinarith
    · nlinarith
  · apply interpAt_mono hsort
    · positivity
    · nlinarith
    · nlinarith

/-- C7 (witness): the ordering on the concrete four-member neighborhood:
`p10 = 103 ≤ median = 115 ≤ p90 = 70036`. -/
theorem c7_witness :
    1 ≤ (computeNeighborhoodStats hood4 MetricKey.price_per_sqft).count
    ∧ ∃ a b c : ℚ,
      (computeNeighborhoodStats hood4 MetricKey.price_per_sqft).p10 = some a
      ∧ (computeNeighborhoodStats hood4 MetricKey.price_per_sqft).median = some b
      ∧ (computeNeighborhoodStats hood4 MetricKey.price_per_sqft).p90 = some c
      ∧ a ≤ b ∧ b ≤ c :=
  ⟨by decide!, c7_p10_le_median_le_p90 hood4 MetricKey.price_per_sqft (by decide!)⟩

end Ashland
